import Mathlib

/-!
Verification development for the Stepper repository (a knowledge-base guided
troubleshooting side panel).  The two core components are embedded shallowly:

* `Stepper` — the step-navigation state machine of `src/stepper.js`
  (`StepperStateMachine`): `reset`, `startArticle`, `getTotalSteps`,
  `getCurrentStep`, `getStepsForActivePath`, `continue` (here `continueStep`,
  since `continue` is a Lean keyword), `back`, `recordFailure`,
  `switchToFallback`, `getCompletionSummary`, `isComplete`.
* `Retrieval` — the scoring / ranking pipeline of `src/retrieval.js`:
  `normalizeQuery`, `scoreArticle`, `retrieveArticles`.

JavaScript specifics and how they are modelled:
* JS strings are modelled as Lean `String` / `List Char`; the code only ever
  manipulates ASCII here, where Lean's `Char.toLower`, `Char.isAlpha`,
  `Char.isDigit` agree with JS `toLowerCase` and the `\w` character class.
* `new Date().toISOString()` timestamps are an explicit `now : String`
  argument threaded through the stateful operations.
* The JS `Set` `completedStepIds` is an insertion-ordered list with
  membership-checked append (`Set.add` semantics).
* The knowledge base (`enhancedKnowledgeBase`, imported by `retrieval.js`
  from `kb.mock.js`) is an explicit `kb : List Article` parameter.
* `Array.prototype.sort` with comparator `(a, b) => b.score - a.score` is a
  stable descending sort (stability is mandated by ES2019); it is embedded as
  a stable insertion sort by descending score.
-/

namespace Stepper

/-- A step of an article or fallback path (`{ id, text, expectedResult?,
sayToCustomer? }` in `kb.mock.js`). -/
structure Step where
  id : String
  text : String
  expectedResult : Option String := none
  sayToCustomer : Option String := none
deriving Repr, DecidableEq

/-- A fallback path of an article (`{ id, condition, steps }`). -/
structure FallbackPath where
  id : String
  condition : String
  steps : List Step
deriving Repr, DecidableEq

/-- An escalation record (`{ when, target }`).  `when` is a Lean keyword, so
the field is `whenCond`. -/
structure Escalation where
  whenCond : String
  target : String
deriving Repr, DecidableEq

/-- A knowledge-base article.  Fields the JS code reads defensively
(`article.tags`, `article.steps || []`, …) are modelled as their read value:
an absent array reads as `[]`, an absent string as `""`, which the guarded
JS code treats identically (an empty array / string contributes nothing). -/
structure Article where
  id : Nat
  title : String := ""
  tags : List String := []
  product : String := ""
  summary : String := ""
  keywords : List String := []
  prechecks : List String := []
  steps : List Step := []
  fallbacks : List FallbackPath := []
  escalation : Option Escalation := none
deriving Repr, DecidableEq

/-- An `attemptedPaths` entry (`{ path, startedAt }`). -/
structure AttemptedPath where
  path : String
  startedAt : String
deriving Repr, DecidableEq

/-- A failure record (`{ stepId, reasonCategory, note, timestamp }`). -/
structure FailureRecord where
  stepId : String
  reasonCategory : String
  note : String
  timestamp : String
deriving Repr, DecidableEq

/-- The `this.state` object of `StepperStateMachine`. -/
structure RunnerState where
  selectedArticleId : Option Nat
  activePath : String
  currentStepIndex : Nat
  completedStepIds : List String
  attemptedPaths : List AttemptedPath
  failureHistory : List FailureRecord
deriving Repr, DecidableEq

/-- JS `Set.prototype.add`: append the element if it is not already a
member (insertion order preserved). -/
def addCompleted (l : List String) (id : String) : List String :=
  if id ∈ l then l else l ++ [id]

/-- Embedding of `reset()` — the initial state (`stepper.js` lines 10–19). -/
def resetState : RunnerState :=
  { selectedArticleId := none
    activePath := "main"
    currentStepIndex := 0
    completedStepIds := []
    attemptedPaths := []
    failureHistory := [] }

/-- Embedding of `getStepsForActivePath(article)` (`stepper.js` lines 61–70). -/
def getStepsForActivePath (s : RunnerState) (article : Option Article) : List Step :=
  match article with
  | none => []
  | some a =>
    if s.activePath = "main" then a.steps
    else
      match a.fallbacks.find? (fun f => f.id = s.activePath) with
      | some f => f.steps
      | none => []

/-- Embedding of `getTotalSteps(article)` (`stepper.js` lines 36–46). -/
def getTotalSteps (s : RunnerState) (article : Option Article) : Nat :=
  match article with
  | none => 0
  | some a =>
    if s.activePath = "main" then a.steps.length
    else
      match a.fallbacks.find? (fun f => f.id = s.activePath) with
      | some f => f.steps.length
      | none => 0

/-- Embedding of `getCurrentStep(article)` (`stepper.js` lines 49–58): `null` when no
article is active or the index is past the end. -/
def getCurrentStep (s : RunnerState) (article : Option Article) : Option Step :=
  match article with
  | none => none
  | some _ => (getStepsForActivePath s article).get? s.currentStepIndex

/-- Result object of `startArticle` / `switchToFallback`. -/
structure PathStartResult where
  totalSteps : Nat
  currentStep : Option Step
deriving Repr, DecidableEq

/-- Embedding of `startArticle(articleId, article)` (`stepper.js` lines 22–33). -/
def startArticle (articleId : Nat) (article : Option Article) (now : String) :
    RunnerState × PathStartResult :=
  let s : RunnerState :=
    { resetState with
        selectedArticleId := some articleId
        activePath := "main"
        currentStepIndex := 0
        attemptedPaths := [⟨"main", now⟩] }
  (s, ⟨getTotalSteps s article, getCurrentStep s article⟩)

/-- Result object of `continue`; the early-return branch carries only
`completed: true` (the other fields are `undefined`, i.e. `none`). -/
structure ContinueResult where
  completed : Bool
  nextStep : Option Step
  currentStepIndex : Option Nat
  totalSteps : Option Nat
deriving Repr, DecidableEq

/-- Embedding of `continue(article)` (`stepper.js` lines 73–94).  `continue` is a Lean
keyword, hence `continueStep`. -/
def continueStep (s : RunnerState) (article : Option Article) :
    RunnerState × ContinueResult :=
  match getCurrentStep s article with
  | none => (s, ⟨true, none, none, none⟩)
  | some currentStep =>
    let s' : RunnerState :=
      { s with
          completedStepIds := addCompleted s.completedStepIds currentStep.id
          currentStepIndex := s.currentStepIndex + 1 }
    let steps := getStepsForActivePath s' article
    let isLastStep : Bool := decide (steps.length ≤ s'.currentStepIndex)
    (s',
      ⟨isLastStep,
        if isLastStep then none else getCurrentStep s' article,
        some s'.currentStepIndex,
        some (getTotalSteps s' article)⟩)

/-- Result object of `back`. -/
structure BackResult where
  success : Bool
  currentStepIndex : Option Nat
  message : Option String
deriving Repr, DecidableEq

/-- Embedding of `back()` (`stepper.js` lines 97–109). -/
def back (s : RunnerState) : RunnerState × BackResult :=
  if 0 < s.currentStepIndex then
    let s' := { s with currentStepIndex := s.currentStepIndex - 1 }
    (s', ⟨true, some s'.currentStepIndex, none⟩)
  else
    (s, ⟨false, none, some "Already at first step"⟩)

/-- Embedding of `recordFailure(stepId, reasonCategory, note)` (`stepper.js` lines
112–123): builds the record, pushes it onto `failureHistory`, returns it. -/
def recordFailure (s : RunnerState) (stepId reasonCategory note now : String) :
    RunnerState × FailureRecord :=
  let failure : FailureRecord := ⟨stepId, reasonCategory, note, now⟩
  ({ s with failureHistory := s.failureHistory ++ [failure] }, failure)

/-- Embedding of `switchToFallback(fallbackId, article)` (`stepper.js` lines 126–138):
sets the active path, resets the index, records the attempt.  (This revision
of `stepper.js` performs no step deduplication.) -/
def switchToFallback (s : RunnerState) (fallbackId : String)
    (article : Option Article) (now : String) : RunnerState × PathStartResult :=
  let s' : RunnerState :=
    { s with
        activePath := fallbackId
        currentStepIndex := 0
        attemptedPaths := s.attemptedPaths ++ [⟨fallbackId, now⟩] }
  (s', ⟨getTotalSteps s' article, getCurrentStep s' article⟩)

/-- Embedding of `isComplete(article)` (`stepper.js` lines 159–162). -/
def isComplete (s : RunnerState) (article : Option Article) : Bool :=
  decide ((getStepsForActivePath s article).length ≤ s.currentStepIndex)

end Stepper

namespace Retrieval

open Stepper (Article)

/-- The JS `\w` character class (ASCII letter, digit, or underscore), as used
by the regex `/[^\w\s]/g` in `normalizeQuery` (`retrieval.js` line 31). -/
def jsWordChar (c : Char) : Bool :=
  c.isAlpha || c.isDigit || c = '_'

/-- The JS `\s` character class restricted to ASCII (space, tab, line feed,
vertical tab, form feed, carriage return), as used by `/[^\w\s]/g`,
`split(/\s+/)` and `trim()`. -/
def jsSpaceChar (c : Char) : Bool :=
  c = ' ' || c = '\t' || c = '\n' || c = Char.ofNat 11 || c = Char.ofNat 12 || c = '\r'

/-- One character of the normalization pipeline: lower-case it, then replace
it by a space unless it is a word or whitespace character (the regex
replacement `normalized.replace(/[^\w\s]/g, ' ')` after `toLowerCase()`). -/
def normalizeChar (c : Char) : Char :=
  let lc := c.toLower
  if jsWordChar lc || jsSpaceChar lc then lc else ' '

/-- Accumulator-based tokenizer: maximal runs of non-`p` characters, in
order.  This is `split(/\s+/).filter(token => token.length > 0)` with `p`
the whitespace class (`retrieval.js` line 34). -/
def tokensAux (p : Char → Bool) : List Char → List Char → List (List Char)
  | [], acc => if acc.isEmpty then [] else [acc.reverse]
  | c :: cs, acc =>
    if p c then
      if acc.isEmpty then tokensAux p cs [] else acc.reverse :: tokensAux p cs []
    else tokensAux p cs (c :: acc)

/-- Maximal non-whitespace runs of a character list. -/
def splitTokens (p : Char → Bool) (l : List Char) : List (List Char) :=
  tokensAux p l []

/-- Embedding of `normalizeQuery(query)` (`retrieval.js` lines 22–37): empty-or-blank
guard, lower-case, replace non-`\w`-non-`\s` characters with spaces, split
on whitespace runs, drop empty tokens. -/
def normalizeQuery (query : String) : List String :=
  if (query.toList.filter (fun c => !jsSpaceChar c)).isEmpty then []
  else
    (splitTokens jsSpaceChar ((query.toList.map Char.toLower).map
      (fun c => if jsWordChar c || jsSpaceChar c then c else ' '))).map
      (fun t => String.mk t)

/-- Embedding of `scoreArticle(article, queryTokens)` (`retrieval.js` lines 45–81): one
accumulator, +3 per normalized tag token found in `queryTokens`, then +2 per
product-name token, then +1 per title token. -/
def scoreArticle (article : Article) (queryTokens : List String) : Nat :=
  let scoreTags :=
    article.tags.foldl
      (fun acc tag =>
        (normalizeQuery tag).foldl
          (fun acc2 tagToken => if tagToken ∈ queryTokens then acc2 + 3 else acc2) acc)
      0
  let scoreProduct :=
    (normalizeQuery article.product).foldl
      (fun acc productToken => if productToken ∈ queryTokens then acc + 2 else acc)
      scoreTags
  let scoreTitle :=
    (normalizeQuery article.title).foldl
      (fun acc titleToken => if titleToken ∈ queryTokens then acc + 1 else acc)
      scoreProduct
  scoreTitle

/-- An `{ article, score }` pair produced by the scoring map
(`retrieval.js` lines 101–104). -/
structure ScoredMatch where
  article : Article
  score : Nat
deriving Repr, DecidableEq

/-- Stable insert for descending sort by score: the new element goes after
every element of strictly greater score and before ties. -/
def insertByScoreDesc (x : ScoredMatch) : List ScoredMatch → List ScoredMatch
  | [] => [x]
  | y :: ys => if x.score < y.score then y :: insertByScoreDesc x ys else x :: y :: ys

/-- Embedding of `Array.prototype.sort` with comparator `(a, b) => b.score - a.score`:
a stable descending sort by score (stability mandated by ES2019), embedded
as a stable insertion sort. -/
def sortByScoreDesc : List ScoredMatch → List ScoredMatch
  | [] => []
  | x :: xs => insertByScoreDesc x (sortByScoreDesc xs)

/-- An element of the returned `matches` array (`retrieval.js` lines
117–124). -/
structure RetMatch where
  id : Nat
  title : String
  summary : String
  product : String
  score : Nat
  article : Article
deriving Repr, DecidableEq

/-- The object a `ScoredMatch` is mapped to in the result. -/
def toRetMatch (m : ScoredMatch) : RetMatch :=
  ⟨m.article.id, m.article.title, m.article.summary, m.article.product, m.score, m.article⟩

/-- The result object of `retrieveArticles`.  The empty-query early return
carries no `topScore` field (modelled as `none`).  The JS field `matches` is
named `matchList` here because `matches` is a Lean keyword. -/
structure RetrieveResult where
  matchList : List RetMatch
  lowConfidence : Bool
  topScore : Option Nat
  query : String
deriving Repr, DecidableEq

/-- Embedding of `retrieveArticles(query, topN = 3)` (`retrieval.js` lines 89–129), with
the module-level `enhancedKnowledgeBase` made an explicit `kb` parameter:
score all articles, sort descending (stable), take `topN`, drop scores ≤ 0,
flag low confidence when the top remaining score (0 if none) is < 9. -/
def retrieveArticles (kb : List Article) (query : String) (topN : Nat) : RetrieveResult :=
  let queryTokens := normalizeQuery query
  if queryTokens.isEmpty then
    { matchList := [], lowConfidence := false, topScore := none, query := query }
  else
    let scoredArticles := kb.map (fun article => ScoredMatch.mk article (scoreArticle article queryTokens))
    let topMatches := ((sortByScoreDesc scoredArticles).take topN).filter (fun m => decide (0 < m.score))
    let topScore : Nat := match topMatches with | [] => 0 | m :: _ => m.score
    { matchList := topMatches.map toRetMatch
      lowConfidence := decide (topScore < 9)
      topScore := some topScore
      query := query }

end Retrieval

namespace StepRunner

open Stepper

/-- Modelled from the spec: the deduplicating
`switchToFallback(fallbackId, article, completedStepTextsSoFar)` of
`src/modules/stepRunner.js`, which `sidepanel.js` imports and calls (reading
`result.skippedSteps`) but which is missing from the source snapshot (only
`src/stepper.js`, an older revision without deduplication, is present).
Per §4.3 of the spec: set `activePath = fallbackId`, reset
`currentStepIndex = 0`, append an `attemptedPaths` entry; then walk the
fallback's step list and skip — auto-mark completed and advance the index
past — the leading run of steps whose text exactly matches a text in
`completedStepTextsSoFar`, stopping at the first step whose text does not
match; return the count of skipped steps. -/
def switchToFallbackDedup (s : RunnerState) (fallbackId : String)
    (article : Option Article) (completedStepTextsSoFar : List String)
    (now : String) : RunnerState × Nat :=
  let switched : RunnerState :=
    { s with
        activePath := fallbackId
        currentStepIndex := 0
        attemptedPaths := s.attemptedPaths ++ [⟨fallbackId, now⟩] }
  let fbSteps := getStepsForActivePath switched article
  let skippedRun := fbSteps.takeWhile (fun st => decide (st.text ∈ completedStepTextsSoFar))
  let s' : RunnerState :=
    { switched with
        currentStepIndex := skippedRun.length
        completedStepIds := skippedRun.foldl (fun l st => addCompleted l st.id) switched.completedStepIds }
  (s', skippedRun.length)

end StepRunner

namespace RetrievalSpec

open Stepper (Article)
open Retrieval

/-- The spec's word-character class as literally stated by the claim under
scrutiny: "a letter, digit, or whitespace" — i.e. a character survives iff
it is a letter or a digit (whitespace is handled by the split).  Note the
absence of the underscore that JS `\w` keeps. -/
def specLetterOrDigit (c : Char) : Bool :=
  c.isAlpha || c.isDigit

/-- Split a character list at every character satisfying `p`, keeping the
(possibly empty) pieces between separators — the plain reading of "split on
whitespace" before empty tokens are dropped. -/
def splitPieces (p : Char → Bool) : List Char → List (List Char)
  | [] => [[]]
  | c :: cs =>
    if p c then [] :: splitPieces p cs
    else
      match splitPieces p cs with
      | [] => [[c]]
      | t :: ts => (c :: t) :: ts

/-- Reference normalization built from the spec sentence, parametric in the
kept word-character class: lower-case the string, replace every character
that is not a kept character or whitespace with a single space, split on
whitespace, and drop empty tokens. -/
def normalizeRef (wordChar : Char → Bool) (query : String) : List String :=
  ((splitPieces jsSpaceChar
      ((query.toList.map Char.toLower).map
        (fun c => if wordChar c || jsSpaceChar c then c else ' '))).filter
    (fun t => !t.isEmpty)).map (fun t => String.mk t)

/-- Variant of `scoreArticle` with the normalization function left as a parameter, to
state that the identical normalization is applied token-by-token to tags,
product name and title. -/
def scoreWith (norm : String → List String) (article : Article)
    (queryTokens : List String) : Nat :=
  let scoreTags :=
    article.tags.foldl
      (fun acc tag =>
        (norm tag).foldl
          (fun acc2 tagToken => if tagToken ∈ queryTokens then acc2 + 3 else acc2) acc)
      0
  let scoreProduct :=
    (norm article.product).foldl
      (fun acc productToken => if productToken ∈ queryTokens then acc + 2 else acc)
      scoreTags
  let scoreTitle :=
    (norm article.title).foldl
      (fun acc titleToken => if titleToken ∈ queryTokens then acc + 1 else acc)
      scoreProduct
  scoreTitle

/-- Number of tag tokens (over all tags, each tag normalized on its own,
occurrences counted with multiplicity) that appear in the query token set. -/
def tagMatchCount (article : Article) (queryTokens : List String) : Nat :=
  (article.tags.map
    (fun tag => (normalizeQuery tag).countP (fun t => decide (t ∈ queryTokens)))).sum

/-- Number of product-name tokens that appear in the query token set. -/
def productMatchCount (article : Article) (queryTokens : List String) : Nat :=
  (normalizeQuery article.product).countP (fun t => decide (t ∈ queryTokens))

/-- Number of title tokens that appear in the query token set. -/
def titleMatchCount (article : Article) (queryTokens : List String) : Nat :=
  (normalizeQuery article.title).countP (fun t => decide (t ∈ queryTokens))

end RetrievalSpec

namespace Stepper

/-- State produced by a fresh `startArticle(articleId, article)` call. -/
def freshStart (articleId : Nat) (a : Article) (now : String) : RunnerState :=
  (startArticle articleId (some a) now).1

/-- State after `k` successive `continue(article)` calls. -/
def continueIter (a : Article) : Nat → RunnerState → RunnerState
  | 0, s => s
  | k + 1, s => (continueStep (continueIter a k s) (some a)).1

/-- One user-triggered state-machine operation, for stating frame
properties over interleavings: the three navigation operations
(`continue`, `back`, `switchToFallback`) and `recordFailure`. -/
inductive RunnerOp where
  | opContinue : RunnerOp
  | opBack : RunnerOp
  | opSwitch (fallbackId now : String) : RunnerOp
  | opRecord (stepId reasonCategory note now : String) : RunnerOp
deriving Repr, DecidableEq

/-- Apply one operation to the state (dropping the returned result). -/
def applyOp (article : Option Article) (s : RunnerState) : RunnerOp → RunnerState
  | .opContinue => (continueStep s article).1
  | .opBack => (back s).1
  | .opSwitch fallbackId now => (switchToFallback s fallbackId article now).1
  | .opRecord stepId reasonCategory note now =>
      (recordFailure s stepId reasonCategory note now).1

/-- Apply a list of operations from left to right. -/
def applyOps (article : Option Article) (s : RunnerState) (ops : List RunnerOp) :
    RunnerState :=
  ops.foldl (applyOp article) s

/-- Whether an operation is a `recordFailure` call. -/
def isRecordOp : RunnerOp → Bool
  | .opRecord _ _ _ _ => true
  | _ => false

/-- States reachable by the step runner from the initial (`Idle`) state with
one fixed active article `a`, under the operations `startArticle`,
`continue`, `back`, `recordFailure`, `switchToFallback` and `reset`. -/
inductive Reachable (a : Article) : RunnerState → Prop where
  | init : Reachable a resetState
  | start (s : RunnerState) (articleId : Nat) (now : String) :
      Reachable a s → Reachable a (startArticle articleId (some a) now).1
  | step (s : RunnerState) :
      Reachable a s → Reachable a (continueStep s (some a)).1
  | goBack (s : RunnerState) :
      Reachable a s → Reachable a (back s).1
  | record (s : RunnerState) (stepId reasonCategory note now : String) :
      Reachable a s → Reachable a (recordFailure s stepId reasonCategory note now).1
  | switchFb (s : RunnerState) (fallbackId now : String) :
      Reachable a s → Reachable a (switchToFallback s fallbackId (some a) now).1
  | doReset (s : RunnerState) :
      Reachable a s → Reachable a resetState

end Stepper

namespace RetrievalSpec

/-- Prepend a piece in front of the head of a piece list (helper for
relating the run-based tokenizer to `splitPieces`). -/
def consHead (pre : List Char) : List (List Char) → List (List Char)
  | [] => [pre]
  | t :: ts => (pre ++ t) :: ts

end RetrievalSpec

namespace Examples

open Stepper

/-- Concrete article used by the witnesses: two main steps and one fallback
path whose first step repeats the first main step, whose second step is
novel, and whose third step repeats the second main step. -/
def exArticle : Article :=
  { id := 7
    title := "Router Issues"
    tags := ["router"]
    product := "NetBox"
    steps := [⟨"s1", "Restart the router", none, none⟩, ⟨"s2", "Check the cable", none, none⟩]
    fallbacks := [⟨"fb-1", "If restarting fails",
      [⟨"f1", "Restart the router", none, none⟩,
       ⟨"f2", "Update firmware", none, none⟩,
       ⟨"f3", "Check the cable", none, none⟩]⟩] }

/-- Concrete article of the C3 scoring example: tags `["email","smtp"]`,
product `"Outlook"`, title `"Email Not Sending"`. -/
def emailArticle : Article :=
  { id := 1
    title := "Email Not Sending"
    tags := ["email", "smtp"]
    product := "Outlook" }

/-- Concrete article matched by nothing in the query `"xyz"`. -/
def unrelatedArticle : Article :=
  { id := 2
    title := "Printer Offline"
    tags := ["printer"]
    product := "PrintCo" }

end Examples

namespace Stepper

/-- Helper: the active step list only depends on the `activePath` field. -/
theorem getStepsForActivePath_congr (s₁ s₂ : RunnerState) (article : Option Article)
    (h : s₁.activePath = s₂.activePath) :
    getStepsForActivePath s₁ article = getStepsForActivePath s₂ article := by
  cases article <;> simp [getStepsForActivePath, h]

/-- Claim C8: whenever `back()` is called at `currentStepIndex = 0` it
returns `success = false` and leaves the state unchanged (so the index is
never decremented below 0); whenever the index is positive, `back()`
succeeds and decrements it by exactly one. -/
theorem claimC8 (s : RunnerState) :
    (s.currentStepIndex = 0 → (back s).2.success = false ∧ (back s).1 = s) ∧
    (0 < s.currentStepIndex →
      (back s).2.success = true ∧
      (back s).1.currentStepIndex = s.currentStepIndex - 1) := by
  constructor
  · intro h
    simp [back, h]
  · intro h
    simp [back, h]

/-- Witness for C8 at two concrete states: the fresh state (index 0) and a
state at index 2. -/
theorem claimC8_witness :
    (back resetState).2.success = false ∧
    (back resetState).1 = resetState ∧
    (back { resetState with currentStepIndex := 2 }).2.success = true ∧
    (back { resetState with currentStepIndex := 2 }).1.currentStepIndex = 1 :=
  ⟨((claimC8 resetState).1 rfl).1,
   ((claimC8 resetState).1 rfl).2,
   ((claimC8 { resetState with currentStepIndex := 2 }).2 (by decide)).1,
   ((claimC8 { resetState with currentStepIndex := 2 }).2 (by decide)).2⟩

/-- Helper: each single operation changes `failureHistory.length` by one
exactly when it is a `recordFailure` call. -/
theorem applyOp_failureHistory_length (article : Option Article) (s : RunnerState)
    (op : RunnerOp) :
    (applyOp article s op).failureHistory.length
      = s.failureHistory.length + (if isRecordOp op then 1 else 0) := by
  cases op with
  | opContinue =>
    cases h : getCurrentStep s article <;>
      simp [applyOp, continueStep, h, isRecordOp]
  | opBack =>
    by_cases h : 0 < s.currentStepIndex <;> simp [applyOp, back, h, isRecordOp]
  | opSwitch fallbackId now =>
    simp [applyOp, switchToFallback, isRecordOp]
  | opRecord stepId reasonCategory note now =>
    simp [applyOp, recordFailure, isRecordOp]

/-- Claim C9: `recordFailure` always succeeds (it is total and returns the
appended record), appends exactly one `FailureRecord` and changes no other
`RunnerState` field; and across any interleaving of navigation operations
(`continue`, `back`, `switchToFallback`) the failure history grows by
exactly the number of `recordFailure` calls — from a fresh state, after `k`
such calls its length is `k`. -/
theorem claimC9 (article : Option Article) :
    (∀ (s : RunnerState) (stepId reasonCategory note now : String),
      (recordFailure s stepId reasonCategory note now).1.failureHistory
          = s.failureHistory ++ [(recordFailure s stepId reasonCategory note now).2] ∧
      (recordFailure s stepId reasonCategory note now).1.selectedArticleId = s.selectedArticleId ∧
      (recordFailure s stepId reasonCategory note now).1.activePath = s.activePath ∧
      (recordFailure s stepId reasonCategory note now).1.currentStepIndex = s.currentStepIndex ∧
      (recordFailure s stepId reasonCategory note now).1.completedStepIds = s.completedStepIds ∧
      (recordFailure s stepId reasonCategory note now).1.attemptedPaths = s.attemptedPaths) ∧
    (∀ (ops : List RunnerOp) (s : RunnerState),
      (applyOps article s ops).failureHistory.length
        = s.failureHistory.length + ops.countP isRecordOp) := by
  constructor
  · intro s stepId reasonCategory note now
    simp [recordFailure]
  · intro ops
    induction ops with
    | nil => intro s; simp [applyOps]
    | cons op rest ih =>
      intro s
      have h1 : applyOps article s (op :: rest) = applyOps article (applyOp article s op) rest := by
        simp [applyOps]
      rw [h1, ih, applyOp_failureHistory_length, List.countP_cons]
      omega

/-- Helper: when `fid` names no fallback of `a`, the `find?` over the
fallback list fails. -/
theorem find?_fallback_none (a : Article) (fid : String)
    (h : ∀ f ∈ a.fallbacks, f.id ≠ fid) :
    a.fallbacks.find? (fun f => f.id = fid) = none := by
  rw [List.find?_eq_none]
  intro f hf
  simpa using h f hf

/-- Claim C10: `switchToFallback` with a `fallbackId` that names no fallback
path of the active article (in particular is not `"main"`) succeeds without
error, and the runner then behaves as if the active path had zero steps:
`getTotalSteps` returns 0, `getCurrentStep` returns `null`, and
`isComplete` is true immediately; the returned snapshot is `⟨0, none⟩`. -/
theorem claimC10 (s : RunnerState) (a : Article) (fid now : String)
    (hmain : fid ≠ "main") (hnofb : ∀ f ∈ a.fallbacks, f.id ≠ fid) :
    getTotalSteps (switchToFallback s fid (some a) now).1 (some a) = 0 ∧
    getCurrentStep (switchToFallback s fid (some a) now).1 (some a) = none ∧
    isComplete (switchToFallback s fid (some a) now).1 (some a) = true ∧
    (switchToFallback s fid (some a) now).2 = ⟨0, none⟩ := by
  have hfind := find?_fallback_none a fid hnofb
  refine ⟨?_, ?_, ?_, ?_⟩ <;>
    simp [switchToFallback, getTotalSteps, getCurrentStep, getStepsForActivePath,
      isComplete, hmain, hfind]

/-- Witness for C10: switching the fresh state to the unknown fallback id
`"nope"` on the example article. -/
theorem claimC10_witness :
    getTotalSteps (switchToFallback resetState "nope" (some Examples.exArticle) "t1").1
        (some Examples.exArticle) = 0 ∧
    isComplete (switchToFallback resetState "nope" (some Examples.exArticle) "t1").1
        (some Examples.exArticle) = true :=
  ⟨(claimC10 resetState Examples.exArticle "nope" "t1" (by decide) (by decide)).1,
   (claimC10 resetState Examples.exArticle "nope" "t1" (by decide) (by decide)).2.2.1⟩

end Stepper

namespace Stepper

/-- Helper: a successful `getCurrentStep` means the index is inside the
active step list. -/
theorem getCurrentStep_isSome_lt (s : RunnerState) (a : Article) (st : Step)
    (h : getCurrentStep s (some a) = some st) :
    s.currentStepIndex < (getStepsForActivePath s (some a)).length := by
  have := List.get?_eq_some.mp h
  exact this.1

/-- Claim C7: for every reachable `RunnerState` with a fixed active article,
`currentStepIndex` lies within `[0, length of the active path's steps]`
after every operation, and an index equal to that length means the path is
complete. -/
theorem claimC7 (a : Article) (s : RunnerState) (h : Reachable a s) :
    s.currentStepIndex ≤ (getStepsForActivePath s (some a)).length ∧
    (s.currentStepIndex = (getStepsForActivePath s (some a)).length →
      isComplete s (some a) = true) := by
  have hidx : s.currentStepIndex ≤ (getStepsForActivePath s (some a)).length := by
    induction h with
    | init => exact Nat.zero_le _
    | start s articleId now _ _ => exact Nat.zero_le _
    | step s _ ih =>
      cases hc : getCurrentStep s (some a) with
      | none => simpa [continueStep, hc] using ih
      | some st =>
        have hlt := getCurrentStep_isSome_lt s a st hc
        have hpath : ((continueStep s (some a)).1).activePath = s.activePath := by
          simp [continueStep, hc]
        have hsteps := getStepsForActivePath_congr ((continueStep s (some a)).1) s (some a) hpath
        have hidx' : ((continueStep s (some a)).1).currentStepIndex = s.currentStepIndex + 1 := by
          simp [continueStep, hc]
        rw [hsteps, hidx']
        exact hlt
    | goBack s _ ih =>
      by_cases hz : 0 < s.currentStepIndex
      · have hpath : ((back s).1).activePath = s.activePath := by simp [back, hz]
        have hsteps := getStepsForActivePath_congr ((back s).1) s (some a) hpath
        have hidx' : ((back s).1).currentStepIndex = s.currentStepIndex - 1 := by
          simp [back, hz]
        rw [hsteps, hidx']
        omega
      · simpa [back, hz] using ih
    | record s stepId reasonCategory note now _ ih =>
      simpa [recordFailure, getStepsForActivePath] using ih
    | switchFb s fallbackId now _ _ => exact Nat.zero_le _
    | doReset s _ => exact Nat.zero_le _
  exact ⟨hidx, fun he => by simp [isComplete, he]⟩

/-- Witness for C7: the invariant instanced at the state obtained by one
`startArticle` followed by one `continue` on the example article. -/
theorem claimC7_witness :
    ((continueStep (startArticle 7 (some Examples.exArticle) "t0").1
        (some Examples.exArticle)).1).currentStepIndex
      ≤ (getStepsForActivePath
          ((continueStep (startArticle 7 (some Examples.exArticle) "t0").1
            (some Examples.exArticle)).1) (some Examples.exArticle)).length :=
  (claimC7 Examples.exArticle _
    (Reachable.step _ (Reachable.start _ 7 "t0" Reachable.init))).1

end Stepper

namespace Stepper

/-- Helper: after `k ≤ n` continues from a fresh start, the path is still
`"main"` and the index is exactly `k`. -/
theorem continueIter_spec (aid : Nat) (a : Article) (now : String) :
    ∀ k, k ≤ a.steps.length →
      (continueIter a k (freshStart aid a now)).activePath = "main" ∧
      (continueIter a k (freshStart aid a now)).currentStepIndex = k := by
  intro k
  induction k with
  | zero => intro _; exact ⟨rfl, rfl⟩
  | succ k ih =>
    intro hk1
    have hk : k ≤ a.steps.length := Nat.le_of_succ_le hk1
    obtain ⟨hpath, hidx⟩ := ih hk
    have hsteps : getStepsForActivePath (continueIter a k (freshStart aid a now)) (some a)
        = a.steps := by
      simp [getStepsForActivePath, hpath]
    have hlt : k < a.steps.length := Nat.lt_of_succ_le hk1
    have hget : a.steps.get? k = some (a.steps.get ⟨k, hlt⟩) := List.get?_eq_get hlt
    have hc : getCurrentStep (continueIter a k (freshStart aid a now)) (some a)
        = some (a.steps.get ⟨k, hlt⟩) := by
      simp [getCurrentStep, hsteps, hidx, hget]
    constructor
    · simp [continueIter, continueStep, hc, hpath]
    · simp [continueIter, continueStep, hc, hidx]

/-- Helper: once the index has reached the number of main steps, `continue`
is a no-op on the state. -/
theorem continueIter_fix (aid : Nat) (a : Article) (now : String) :
    ∀ m, continueIter a (a.steps.length + m) (freshStart aid a now)
      = continueIter a a.steps.length (freshStart aid a now) := by
  have hend : getCurrentStep (continueIter a a.steps.length (freshStart aid a now)) (some a)
      = none := by
    obtain ⟨hpath, hidx⟩ := continueIter_spec aid a now a.steps.length (Nat.le_refl _)
    have hsteps : getStepsForActivePath
        (continueIter a a.steps.length (freshStart aid a now)) (some a) = a.steps := by
      simp [getStepsForActivePath, hpath]
    simp [getCurrentStep, hsteps, hidx, List.get?_eq_none.mpr (Nat.le_refl _)]
  intro m
  induction m with
  | zero => rfl
  | succ m ih =>
    have : a.steps.length + (m + 1) = (a.steps.length + m) + 1 := rfl
    rw [this]
    show (continueStep (continueIter a (a.steps.length + m) (freshStart aid a now)) (some a)).1
      = _
    rw [ih]
    simp [continueStep, hend]

/-- Claim C1: from a fresh `startArticle` on an article with `n ≥ 1` steps,
the `(j+1)`-th `continue()` call reports `completed = true` exactly when
`j + 1 = n`; after `n` or more calls `isComplete()` is true; and any
`continue()` call past that point is a no-op on the state (so
`completedStepIds` does not grow) returning `completed: true` only. -/
theorem claimC1 (a : Article) (aid : Nat) (now : String) (_hn : 1 ≤ a.steps.length) :
    (∀ j, j < a.steps.length →
      ((continueStep (continueIter a j (freshStart aid a now)) (some a)).2.completed = true
        ↔ j + 1 = a.steps.length)) ∧
    (∀ k, a.steps.length ≤ k →
      isComplete (continueIter a k (freshStart aid a now)) (some a) = true) ∧
    (∀ k, a.steps.length ≤ k →
      continueStep (continueIter a k (freshStart aid a now)) (some a)
        = (continueIter a k (freshStart aid a now), ⟨true, none, none, none⟩)) := by
  have hend : getCurrentStep (continueIter a a.steps.length (freshStart aid a now)) (some a)
      = none := by
    obtain ⟨hpath, hidx⟩ := continueIter_spec aid a now a.steps.length (Nat.le_refl _)
    have hsteps : getStepsForActivePath
        (continueIter a a.steps.length (freshStart aid a now)) (some a) = a.steps := by
      simp [getStepsForActivePath, hpath]
    simp [getCurrentStep, hsteps, hidx, List.get?_eq_none.mpr (Nat.le_refl _)]
  refine ⟨?_, ?_, ?_⟩
  · intro j hj
    obtain ⟨hpath, hidx⟩ := continueIter_spec aid a now j (Nat.le_of_lt hj)
    have hsteps : getStepsForActivePath (continueIter a j (freshStart aid a now)) (some a)
        = a.steps := by
      simp [getStepsForActivePath, hpath]
    have hget : a.steps.get? j = some (a.steps.get ⟨j, hj⟩) := List.get?_eq_get hj
    have hc : getCurrentStep (continueIter a j (freshStart aid a now)) (some a)
        = some (a.steps.get ⟨j, hj⟩) := by
      simp [getCurrentStep, hsteps, hidx, hget]
    have hcomp : (continueStep (continueIter a j (freshStart aid a now)) (some a)).2.completed
        = decide (a.steps.length ≤ j + 1) := by
      simp [continueStep, hc, getStepsForActivePath, hpath, hidx]
    rw [hcomp]
    simp only [decide_eq_true_eq]
    omega
  · intro k hk
    obtain ⟨m, rfl⟩ := Nat.le.dest hk
    rw [continueIter_fix]
    obtain ⟨hpath, hidx⟩ := continueIter_spec aid a now a.steps.length (Nat.le_refl _)
    have hsteps : getStepsForActivePath
        (continueIter a a.steps.length (freshStart aid a now)) (some a) = a.steps := by
      simp [getStepsForActivePath, hpath]
    simp [isComplete, hsteps, hidx]
  · intro k hk
    obtain ⟨m, rfl⟩ := Nat.le.dest hk
    rw [continueIter_fix]
    simp [continueStep, hend]

/-- Witness for C1 on the two-step example article: the second `continue()`
reports completion, `isComplete` holds after two calls, and a third call is
a state no-op returning `completed: true`. -/
theorem claimC1_witness :
    ((continueStep (continueIter Examples.exArticle 1 (freshStart 7 Examples.exArticle "t0"))
        (some Examples.exArticle)).2.completed = true) ∧
    (isComplete (continueIter Examples.exArticle 2 (freshStart 7 Examples.exArticle "t0"))
        (some Examples.exArticle) = true) ∧
    (continueStep (continueIter Examples.exArticle 2 (freshStart 7 Examples.exArticle "t0"))
        (some Examples.exArticle)
      = (continueIter Examples.exArticle 2 (freshStart 7 Examples.exArticle "t0"),
          ⟨true, none, none, none⟩)) :=
  ⟨((claimC1 Examples.exArticle 7 "t0" (by decide)).1 1 (by decide)).mpr (by decide),
   (claimC1 Examples.exArticle 7 "t0" (by decide)).2.1 2 (by decide),
   (claimC1 Examples.exArticle 7 "t0" (by decide)).2.2 2 (by decide)⟩

end Stepper

namespace StepRunner

open Stepper

/-- Helper: every element strictly inside the `takeWhile` run satisfies the
predicate. -/
theorem takeWhile_run_all {α : Type} (p : α → Bool) :
    ∀ (l : List α) (i : Nat) (x : α),
      i < (l.takeWhile p).length → l.get? i = some x → p x = true := by
  intro l
  induction l with
  | nil => intro i x h hx; simp at hx
  | cons a l ih =>
    intro i x h hx
    cases hp : p a with
    | false => simp [List.takeWhile, hp] at h
    | true =>
      cases i with
      | zero =>
        simp at hx
        rw [← hx]
        exact hp
      | succ i =>
        simp [List.takeWhile, hp] at h
        exact ih i x (by omega) (by simpa using hx)

/-- Helper: the element just past the `takeWhile` run (when it exists) fails
the predicate. -/
theorem takeWhile_run_stop {α : Type} (p : α → Bool) :
    ∀ (l : List α) (x : α),
      l.get? (l.takeWhile p).length = some x → p x = false := by
  intro l
  induction l with
  | nil => intro x hx; simp at hx
  | cons a l ih =>
    intro x hx
    cases hp : p a with
    | false =>
      simp [List.takeWhile, hp] at hx
      rw [← hx]
      exact hp
    | true =>
      simp [List.takeWhile, hp] at hx
      exact ih x (by simpa using hx)

/-- Claim C2 (spec-modelled, `modules/stepRunner.js` being absent from the
snapshot): for every fallback path and every list of previously completed
step texts, `switchToFallback` skips exactly the longest leading run of
fallback steps whose text matches a completed text — every skipped step
matches, the first unskipped step (if any) does not, even if a later step
would match — returns that count, and leaves the index just past the run. -/
theorem claimC2 (s : RunnerState) (a : Article) (fb : FallbackPath)
    (fid now : String) (cts : List String)
    (hmain : fid ≠ "main")
    (hfind : a.fallbacks.find? (fun f => f.id = fid) = some fb) :
    (switchToFallbackDedup s fid (some a) cts now).2
        = (fb.steps.takeWhile (fun st => decide (st.text ∈ cts))).length ∧
    (switchToFallbackDedup s fid (some a) cts now).1.currentStepIndex
        = (switchToFallbackDedup s fid (some a) cts now).2 ∧
    (switchToFallbackDedup s fid (some a) cts now).1.activePath = fid ∧
    (∀ i st, i < (switchToFallbackDedup s fid (some a) cts now).2 →
      fb.steps.get? i = some st → st.text ∈ cts) ∧
    (∀ st, fb.steps.get? (switchToFallbackDedup s fid (some a) cts now).2 = some st →
      st.text ∉ cts) := by
  have hsteps : getStepsForActivePath
      { s with activePath := fid, currentStepIndex := 0,
               attemptedPaths := s.attemptedPaths ++ [⟨fid, now⟩] } (some a) = fb.steps := by
    simp [getStepsForActivePath, hmain, hfind]
  have hcount : (switchToFallbackDedup s fid (some a) cts now).2
      = (fb.steps.takeWhile (fun st => decide (st.text ∈ cts))).length := by
    simp [switchToFallbackDedup, hsteps]
  refine ⟨hcount, ?_, ?_, ?_, ?_⟩
  · simp [switchToFallbackDedup, hsteps]
  · simp [switchToFallbackDedup]
  · intro i st hi hget
    rw [hcount] at hi
    have := takeWhile_run_all (fun st => decide (st.text ∈ cts)) fb.steps i st hi hget
    simpa using this
  · intro st hget
    rw [hcount] at hget
    have := takeWhile_run_stop (fun st => decide (st.text ∈ cts)) fb.steps st hget
    simpa using this

/-- Witness for C2 on the example article: the fallback's first step text
was already completed, its second is novel, its third repeats a completed
text — exactly one step is skipped and the index lands on step two. -/
theorem claimC2_witness :
    (switchToFallbackDedup Stepper.resetState "fb-1" (some Examples.exArticle)
        ["Restart the router", "Check the cable"] "t2").2 = 1 ∧
    (switchToFallbackDedup Stepper.resetState "fb-1" (some Examples.exArticle)
        ["Restart the router", "Check the cable"] "t2").1.currentStepIndex = 1 :=
  ⟨by
      have h := (claimC2 Stepper.resetState Examples.exArticle
        ⟨"fb-1", "If restarting fails",
          [⟨"f1", "Restart the router", none, none⟩,
           ⟨"f2", "Update firmware", none, none⟩,
           ⟨"f3", "Check the cable", none, none⟩]⟩
        "fb-1" "t2" ["Restart the router", "Check the cable"] (by decide) (by rfl)).1
      rw [h]
      decide,
   by
      have h := (claimC2 Stepper.resetState Examples.exArticle
        ⟨"fb-1", "If restarting fails",
          [⟨"f1", "Restart the router", none, none⟩,
           ⟨"f2", "Update firmware", none, none⟩,
           ⟨"f3", "Check the cable", none, none⟩]⟩
        "fb-1" "t2" ["Restart the router", "Check the cable"] (by decide) (by rfl)).2.1
      rw [h]
      have h2 := (claimC2 Stepper.resetState Examples.exArticle
        ⟨"fb-1", "If restarting fails",
          [⟨"f1", "Restart the router", none, none⟩,
           ⟨"f2", "Update firmware", none, none⟩,
           ⟨"f3", "Check the cable", none, none⟩]⟩
        "fb-1" "t2" ["Restart the router", "Check the cable"] (by decide) (by rfl)).1
      rw [h2]
      decide⟩

end StepRunner

namespace Retrieval

/-- Helper: a fold that adds `w` for every element satisfying `p` counts the
satisfying elements. -/
theorem foldl_if_count {α : Type} (p : α → Prop) [DecidablePred p] (w : Nat) :
    ∀ (l : List α) (init : Nat),
      l.foldl (fun acc t => if p t then acc + w else acc) init
        = init + w * l.countP (fun t => decide (p t)) := by
  intro l
  induction l with
  | nil => intro init; simp
  | cons t l ih =>
    intro init
    simp only [List.foldl_cons, List.countP_cons]
    by_cases h : p t
    · simp only [h, if_true, decide_eq_true_eq, ih]
      ring
    · simp only [h, if_false, ih]
      simp [h]

/-- Helper: the nested tag fold adds 3 per matching tag token, over all
tags. -/
theorem foldl_tags_count (tags : List String) (qt : List String) :
    ∀ init : Nat,
      tags.foldl
        (fun acc tag =>
          (normalizeQuery tag).foldl
            (fun acc2 tagToken => if tagToken ∈ qt then acc2 + 3 else acc2) acc)
        init
      = init + 3 * (tags.map
          (fun tag => (normalizeQuery tag).countP (fun t => decide (t ∈ qt)))).sum := by
  induction tags with
  | nil => intro init; simp
  | cons tag tags ih =>
    intro init
    simp only [List.foldl_cons, List.map_cons, List.sum_cons]
    rw [foldl_if_count (fun t => t ∈ qt) 3, ih]
    ring

/-- Claim C3: the retrieval score of an article is the sum of +3 per tag
token in the query token set, +2 per product-name token, and +1 per title
token, each field occurrence counted independently; in particular the
article with tags `["email","smtp"]`, product `"Outlook"`, title
`"Email Not Sending"` scores exactly 9 for the query
`"outlook email smtp"`. -/
theorem claimC3 :
    (∀ (a : Stepper.Article) (qt : List String),
      scoreArticle a qt
        = 3 * RetrievalSpec.tagMatchCount a qt
          + 2 * RetrievalSpec.productMatchCount a qt
          + RetrievalSpec.titleMatchCount a qt) ∧
    scoreArticle Examples.emailArticle (normalizeQuery "outlook email smtp") = 9 := by
  constructor
  · intro a qt
    simp only [scoreArticle, RetrievalSpec.tagMatchCount, RetrievalSpec.productMatchCount,
      RetrievalSpec.titleMatchCount]
    rw [foldl_tags_count, foldl_if_count (fun t => t ∈ qt) 2,
      foldl_if_count (fun t => t ∈ qt) 1]
    ring
  · rfl

end Retrieval

namespace Retrieval

/-- Helper: stable insertion is a permutation of consing. -/
theorem insertByScoreDesc_perm (x : ScoredMatch) (l : List ScoredMatch) :
    List.Perm (insertByScoreDesc x l) (x :: l) := by
  induction l with
  | nil => exact List.Perm.refl _
  | cons y ys ih =>
    by_cases h : x.score < y.score
    · simp only [insertByScoreDesc, if_pos h]
      exact (List.Perm.cons y ih).trans (List.Perm.swap x y ys)
    · simp only [insertByScoreDesc, if_neg h]
      exact List.Perm.refl _

/-- Helper: the stable sort is a permutation of its input. -/
theorem sortByScoreDesc_perm (l : List ScoredMatch) :
    List.Perm (sortByScoreDesc l) l := by
  induction l with
  | nil => exact List.Perm.refl _
  | cons x xs ih =>
    exact (insertByScoreDesc_perm x (sortByScoreDesc xs)).trans (List.Perm.cons x ih)

/-- Helper: stable insertion preserves descending sortedness. -/
theorem insertByScoreDesc_pairwise (x : ScoredMatch) (l : List ScoredMatch)
    (h : l.Pairwise (fun u v => v.score ≤ u.score)) :
    (insertByScoreDesc x l).Pairwise (fun u v => v.score ≤ u.score) := by
  induction l with
  | nil => simp [insertByScoreDesc]
  | cons y ys ih =>
    rw [List.pairwise_cons] at h
    obtain ⟨hy, hys⟩ := h
    by_cases hlt : x.score < y.score
    · simp only [insertByScoreDesc, if_pos hlt]
      rw [List.pairwise_cons]
      refine ⟨?_, ih hys⟩
      intro z hz
      rcases List.mem_cons.mp ((insertByScoreDesc_perm x ys).mem_iff.mp hz) with hz' | hz'
      · subst hz'; omega
      · exact hy z hz'
    · simp only [insertByScoreDesc, if_neg hlt]
      rw [List.pairwise_cons]
      refine ⟨?_, ?_⟩
      · intro z hz
        rcases List.mem_cons.mp hz with hz' | hz'
        · subst hz'; omega
        · have := hy z hz'; omega
      · rw [List.pairwise_cons]
        exact ⟨hy, hys⟩

end Retrieval

namespace Retrieval

/-- Helper: the descending stable sort produces a list sorted by score. -/
theorem sortByScoreDesc_pairwise (l : List ScoredMatch) :
    (sortByScoreDesc l).Pairwise (fun u v => v.score ≤ u.score) := by
  induction l with
  | nil => simp [sortByScoreDesc]
  | cons x xs ih => exact insertByScoreDesc_pairwise x (sortByScoreDesc xs) ih

/-- Helper: restricting to one score class, stable insertion behaves like
consing — the inserted element lands before every tie. -/
theorem insertByScoreDesc_filter_score (x : ScoredMatch) (l : List ScoredMatch) (sc : Nat) :
    (insertByScoreDesc x l).filter (fun m => decide (m.score = sc))
      = (x :: l).filter (fun m => decide (m.score = sc)) := by
  induction l with
  | nil => rfl
  | cons y ys ih =>
    by_cases hlt : x.score < y.score
    · simp only [insertByScoreDesc, if_pos hlt]
      by_cases hy : y.score = sc
      · by_cases hx : x.score = sc
        · omega
        · simp [List.filter_cons, hy, hx, ih]
      · simp [List.filter_cons, hy, ih]
    · simp only [insertByScoreDesc, if_neg hlt]

/-- Helper: the sort is stable — each score class keeps the input's relative
order. -/
theorem sortByScoreDesc_filter_score (l : List ScoredMatch) (sc : Nat) :
    (sortByScoreDesc l).filter (fun m => decide (m.score = sc))
      = l.filter (fun m => decide (m.score = sc)) := by
  induction l with
  | nil => rfl
  | cons x xs ih =>
    rw [show sortByScoreDesc (x :: xs) = insertByScoreDesc x (sortByScoreDesc xs) from rfl,
      insertByScoreDesc_filter_score]
    simp [List.filter_cons, ih]

/-- Helper: an article scores 0 against an empty token list. -/
theorem scoreArticle_nil (a : Stepper.Article) : scoreArticle a [] = 0 := by
  simp only [scoreArticle]
  rw [foldl_tags_count, foldl_if_count (fun t => t ∈ ([] : List String)) 2,
    foldl_if_count (fun t => t ∈ ([] : List String)) 1]
  simp

/-- Claim C5: for every query and `topN`, the returned match list is the
scored articles sorted by descending score — stably, ties keeping the
knowledge base's original relative order (the sorted list is sorted and
each score class keeps the input order) — truncated to `topN` and with
every entry of score ≤ 0 dropped, so at most `topN` results remain. -/
theorem claimC5 (kb : List Stepper.Article) (query : String) (topN : Nat) :
    (retrieveArticles kb query topN).matchList
      = (((sortByScoreDesc (kb.map
            (fun a => ScoredMatch.mk a (scoreArticle a (normalizeQuery query))))).take topN).filter
          (fun m => decide (0 < m.score))).map toRetMatch ∧
    (sortByScoreDesc (kb.map
        (fun a => ScoredMatch.mk a (scoreArticle a (normalizeQuery query))))).Pairwise
      (fun u v => v.score ≤ u.score) ∧
    (∀ sc : Nat,
      (sortByScoreDesc (kb.map
          (fun a => ScoredMatch.mk a (scoreArticle a (normalizeQuery query))))).filter
          (fun m => decide (m.score = sc))
        = (kb.map (fun a => ScoredMatch.mk a (scoreArticle a (normalizeQuery query)))).filter
          (fun m => decide (m.score = sc))) ∧
    (retrieveArticles kb query topN).matchList.length ≤ topN := by
  refine ⟨?_, sortByScoreDesc_pairwise _, fun sc => sortByScoreDesc_filter_score _ sc, ?_⟩
  · by_cases h : (normalizeQuery query).isEmpty
    · have hnil : normalizeQuery query = [] := by
        cases hq : normalizeQuery query with
        | nil => rfl
        | cons t ts => rw [hq] at h; simp at h
      have hzero : ∀ m ∈ (sortByScoreDesc (kb.map
          (fun a => ScoredMatch.mk a (scoreArticle a (normalizeQuery query))))).take topN,
          ¬ (0 < m.score) := by
        intro m hm
        have hm1 : m ∈ sortByScoreDesc (kb.map
            (fun a => ScoredMatch.mk a (scoreArticle a (normalizeQuery query)))) :=
          List.take_subset topN _ hm
        have hm2 := (sortByScoreDesc_perm _).mem_iff.mp hm1
        obtain ⟨a, _, rfl⟩ := List.mem_map.mp hm2
        rw [hnil]
        simp [scoreArticle_nil]
      have hfil : ((sortByScoreDesc (kb.map
          (fun a => ScoredMatch.mk a (scoreArticle a (normalizeQuery query))))).take topN).filter
          (fun m => decide (0 < m.score)) = [] := by
        rw [List.filter_eq_nil_iff]
        intro m hm
        simpa using hzero m hm
      rw [hfil]
      simp [retrieveArticles, h]
    · simp [retrieveArticles, h]
  · by_cases h : (normalizeQuery query).isEmpty
    · simp [retrieveArticles, h]
    · simp only [retrieveArticles, h, if_neg, Bool.false_eq_true, not_false_eq_true,
        List.length_map]
      calc (((sortByScoreDesc (kb.map
            (fun a => ScoredMatch.mk a (scoreArticle a (normalizeQuery query))))).take topN).filter
            (fun m => decide (0 < m.score))).length
          ≤ ((sortByScoreDesc (kb.map
            (fun a => ScoredMatch.mk a (scoreArticle a (normalizeQuery query))))).take topN).length :=
            List.length_filter_le _ _
        _ ≤ topN := List.length_take_le _ _

end Retrieval

namespace Retrieval

/-- Counterexample to C4 as stated: for the query `"xyz"` (one token)
against a knowledge base it does not match, no matches remain after
dropping non-positive scores, yet `lowConfidence` is `true` (the code takes
`topScore = 0 < 9`), not `false` as claimed. -/
theorem claimC4_counterexample :
    ¬ ((retrieveArticles [Examples.unrelatedArticle] "xyz" 3).matchList = [] →
       (retrieveArticles [Examples.unrelatedArticle] "xyz" 3).lowConfidence = false) := by
  decide

/-- Claim C4 as amended: for every query with at least one token,
`lowConfidence` is true iff the top remaining score — taken as 0 when no
positive-score matches remain — is strictly below 9; in particular when no
matches remain the empty match list is returned with `lowConfidence = true`
(not `false`). -/
theorem claimC4_amended (kb : List Stepper.Article) (query : String) (topN : Nat)
    (h : normalizeQuery query ≠ []) :
    ((retrieveArticles kb query topN).lowConfidence
        = decide ((match (retrieveArticles kb query topN).matchList with
            | [] => (0 : Nat)
            | m :: _ => m.score) < 9)) ∧
    ((retrieveArticles kb query topN).matchList = [] →
      (retrieveArticles kb query topN).lowConfidence = true) := by
  have hne : (normalizeQuery query).isEmpty = false := by
    cases hq : normalizeQuery query with
    | nil => exact absurd hq h
    | cons t ts => simp
  simp only [retrieveArticles, hne, Bool.false_eq_true, if_false]
  generalize (((sortByScoreDesc (kb.map (fun article => ScoredMatch.mk article
      (scoreArticle article (normalizeQuery query))))).take topN).filter
      (fun m => decide (0 < m.score))) = tm
  cases tm with
  | nil => simp
  | cons m rest => simp [toRetMatch]

/-- Witness for the amended C4 at the concrete no-match input. -/
theorem claimC4_witness :
    (retrieveArticles [Examples.unrelatedArticle] "xyz" 3).lowConfidence = true :=
  (claimC4_amended [Examples.unrelatedArticle] "xyz" 3 (by decide)).2 (by decide)

end Retrieval

namespace RetrievalSpec

open Retrieval

/-- Helper: splitting always yields at least one (possibly empty) piece. -/
theorem splitPieces_ne_nil (p : Char → Bool) (l : List Char) : splitPieces p l ≠ [] := by
  cases l with
  | nil => simp [splitPieces]
  | cons c cs =>
    by_cases h : p c
    · simp [splitPieces, h]
    · cases hs : splitPieces p cs with
      | nil => simp [splitPieces, h, hs]
      | cons t ts => simp [splitPieces, h, hs]

/-- Helper: prepending the empty piece is the identity on nonempty piece
lists. -/
theorem consHead_nil (l : List (List Char)) (h : l ≠ []) : consHead [] l = l := by
  cases l with
  | nil => exact absurd rfl h
  | cons t ts => simp [consHead]

/-- Helper: the run-based tokenizer equals split-then-drop-empties, with the
pending accumulator merged into the first piece. -/
theorem tokensAux_eq (p : Char → Bool) :
    ∀ (l : List Char) (acc : List Char),
      tokensAux p l acc = (consHead acc.reverse (splitPieces p l)).filter (fun t => !t.isEmpty) := by
  intro l
  induction l with
  | nil =>
    intro acc
    cases acc with
    | nil => simp [tokensAux, splitPieces, consHead]
    | cons a as => simp [tokensAux, splitPieces, consHead]
  | cons c cs ih =>
    intro acc
    by_cases h : p c
    · have ih0 := ih []
      simp only [List.reverse_nil] at ih0
      rw [consHead_nil _ (splitPieces_ne_nil p cs)] at ih0
      cases hacc : acc.isEmpty with
      | true =>
        have : acc = [] := by
          cases acc with
          | nil => rfl
          | cons a as => simp at hacc
        subst this
        simp [tokensAux, h, splitPieces, consHead, ih0]
      | false =>
        have hne : acc.reverse.isEmpty = false := by
          cases acc with
          | nil => simp at hacc
          | cons a as => simp
        simp [tokensAux, h, hacc, splitPieces, consHead, ih0, hne]
    · obtain ⟨t, ts, hs⟩ : ∃ t ts, splitPieces p cs = t :: ts := by
        cases hs : splitPieces p cs with
        | nil => exact absurd hs (splitPieces_ne_nil p cs)
        | cons t ts => exact ⟨t, ts, rfl⟩
      have ih1 := ih (c :: acc)
      rw [hs] at ih1
      simp only [tokensAux, h, if_false]
      rw [ih1]
      simp [splitPieces, h, hs, consHead]

/-- Helper: the source tokenizer equals the spec's split-then-drop-empties
reading. -/
theorem splitTokens_eq (p : Char → Bool) (l : List Char) :
    splitTokens p l = (splitPieces p l).filter (fun t => !t.isEmpty) := by
  rw [splitTokens, tokensAux_eq, List.reverse_nil, consHead_nil _ (splitPieces_ne_nil p l)]

/-- Helper: lower-casing fixes whitespace characters. -/
theorem jsSpace_toLower (c : Char) (h : jsSpaceChar c = true) : c.toLower = c := by
  simp only [jsSpaceChar, Bool.or_eq_true, decide_eq_true_eq] at h
  rcases h with ((((h | h) | h) | h) | h) | h <;> subst h <;> decide

/-- Helper: a list of only separator characters tokenizes to nothing. -/
theorem splitPieces_all_space (p : Char → Bool) :
    ∀ l : List Char, (∀ c ∈ l, p c = true) →
      (splitPieces p l).filter (fun t => !t.isEmpty) = [] := by
  intro l
  induction l with
  | nil => intro _; simp [splitPieces]
  | cons c cs ih =>
    intro h
    have hc : p c = true := h c (List.mem_cons_self c cs)
    simp only [splitPieces, hc, if_true]
    rw [List.filter_cons]
    simp only [List.isEmpty_nil]
    exact ih (fun d hd => h d (List.mem_cons_of_mem c hd))

/-- Helper: the source normalization (JS `\w`, which keeps the underscore)
equals the reference definition amended to keep letters, digits and the
underscore. -/
theorem normalizeQuery_eq_amendedRef (q : String) :
    normalizeQuery q
      = normalizeRef (fun c => c.isAlpha || c.isDigit || c = '_') q := by
  by_cases hg : (q.toList.filter (fun c => !jsSpaceChar c)).isEmpty
  · have hall : ∀ c ∈ q.toList, jsSpaceChar c = true := by
      intro c hc
      by_contra hns
      have h1 : (!jsSpaceChar c) = true := by
        cases hcc : jsSpaceChar c with
        | true => exact absurd hcc hns
        | false => simp
      have : c ∈ q.toList.filter (fun c => !jsSpaceChar c) := List.mem_filter.mpr ⟨hc, h1⟩
      rw [List.isEmpty_iff.mp hg] at this
      simp at this
    have hmapped : ∀ x ∈ (q.toList.map Char.toLower).map
        (fun c => if (c.isAlpha || c.isDigit || c = '_') || jsSpaceChar c then c else ' '),
        jsSpaceChar x = true := by
      intro x hx
      rw [List.map_map] at hx
      obtain ⟨c, hc, rfl⟩ := List.mem_map.mp hx
      have hsp := hall c hc
      simp only [Function.comp]
      rw [jsSpace_toLower c hsp]
      simp [hsp]
    rw [normalizeQuery]
    rw [if_pos hg]
    rw [normalizeRef]
    rw [splitPieces_all_space jsSpaceChar _ hmapped]
    simp
  · rw [normalizeQuery, if_neg hg, normalizeRef, splitTokens_eq]
    simp only [jsWordChar]

/-- Counterexample to C6 as stated: on the input `"a_b"` the code keeps the
underscore (one token `"a_b"`, JS `\w`), while the claimed reference —
which spaces out every character that is not a letter or digit — yields
`["a", "b"]`. -/
theorem claimC6_counterexample :
    normalizeQuery "a_b" ≠ normalizeRef specLetterOrDigit "a_b" := by
  decide

/-- Claim C6 as amended: query normalization equals the reference
definition with the kept class widened to letter, digit, or underscore
(JS `\w`); and the identical normalization is applied token-by-token to
each article's tags, product name and title before comparison. -/
theorem claimC6_amended :
    (∀ q : String, normalizeQuery q
        = normalizeRef (fun c => c.isAlpha || c.isDigit || c = '_') q) ∧
    (∀ (a : Stepper.Article) (qt : List String),
      scoreArticle a qt
        = scoreWith (normalizeRef (fun c => c.isAlpha || c.isDigit || c = '_')) a qt) := by
  refine ⟨normalizeQuery_eq_amendedRef, ?_⟩
  intro a qt
  have hfun : normalizeRef (fun c => c.isAlpha || c.isDigit || c = '_') = normalizeQuery :=
    funext fun q => (normalizeQuery_eq_amendedRef q).symm
  rw [hfun]
  rfl

end RetrievalSpec
